import Mathlib

/-!
# Verification of the ASUS BIOS renamer metadata extractor

Shallow embedding of `src/bios.rs`: the `$BOOTEFI$` marker search, the
158-byte info-block field extraction, string/date decoding, and file
validation.  An input stream is modelled as a `List Nat` of byte values;
a Rust `String` is modelled as a `List Nat` of Unicode code points.
Rust panics (out-of-bounds slice indexing) are modelled explicitly as a
distinguished outcome.
-/

set_option maxRecDepth 10000

namespace BiosRenamer

/-- `INFO_HEADER_LEN`: length of the `$BOOTEFI$` marker. -/
def INFO_HEADER_LEN : Nat := 9

/-- `BIOS_INFO_HEADER`: byte array used to search for the start of the BIOS
info block (`"$BOOTEFI$"`). -/
def BIOS_INFO_HEADER : List Nat :=
  [0x24, 0x42, 0x4F, 0x4F, 0x54, 0x45, 0x46, 0x49, 0x24]

/-- `BIOS_INFO_SIZE`: total size of the info block minus the header. -/
def BIOS_INFO_SIZE : Nat := 158

/-- Offset of the board name from the end of the info header. -/
def BOARD_NAME_OFFSET : Nat := 0x05
/-- Number of bytes reserved for the board name in the info block. -/
def BOARD_NAME_LEN : Nat := 60

/-- Offset of the brand name from the end of the info header. -/
def BRAND_NAME_OFFSET : Nat := 0x41
/-- Number of bytes reserved for the brand name in the info block. -/
def BRAND_NAME_LEN : Nat := 20

/-- Offset of the build date from the end of the info header. -/
def DATE_OFFSET : Nat := 0x56
/-- Number of bytes reserved for the build date in the info block. -/
def DATE_LEN : Nat := 10

/-- Offset of the build number from the end of the info header. -/
def BUILD_NUMBER_OFFSET : Nat := 0x61
/-- Number of bytes reserved for the build number in the info block. -/
def BUILD_NUMBER_LEN : Nat := 14

/-- Offset of the CAP file name from the end of the info header. -/
def CAP_NAME_OFFSET : Nat := 0x88
/-- Number of bytes reserved for the CAP file name in the info block. -/
def CAP_NAME_LEN : Nat := 12

def MIB_FACTOR : Nat := 1048576

/-- Maximum allowed file size (150 MiB). -/
def MAX_FILE_SIZE : Nat := 150 * MIB_FACTOR

/-- Replacement character U+FFFD emitted by lossy UTF-8 decoding. -/
def REPLACEMENT_CHAR : Nat := 0xFFFD

/-- UTF-8 lossy decoding (Rust `String::from_utf8_lossy`): decode a byte
list to a list of Unicode code points, substituting U+FFFD for each
maximal invalid subsequence, per the WHATWG / Unicode substitution-of-
maximal-subparts policy implemented by Rust's `core::str` validator. -/
def utf8Lossy : List Nat → List Nat
  | [] => []
  | b :: rest =>
    if b < 0x80 then
      b :: utf8Lossy rest
    else if b < 0xC2 then
      -- stray continuation byte or overlong-only lead (0xC0/0xC1)
      REPLACEMENT_CHAR :: utf8Lossy rest
    else if b ≤ 0xDF then
      match rest with
      | [] => [REPLACEMENT_CHAR]
      | c1 :: rest1 =>
        if 0x80 ≤ c1 ∧ c1 ≤ 0xBF then
          ((b - 0xC0) * 0x40 + (c1 - 0x80)) :: utf8Lossy rest1
        else
          REPLACEMENT_CHAR :: utf8Lossy (c1 :: rest1)
    else if b ≤ 0xEF then
      match rest with
      | [] => [REPLACEMENT_CHAR]
      | c1 :: rest1 =>
        if (if b = 0xE0 then 0xA0 ≤ c1 ∧ c1 ≤ 0xBF
            else if b = 0xED then 0x80 ≤ c1 ∧ c1 ≤ 0x9F
            else 0x80 ≤ c1 ∧ c1 ≤ 0xBF) then
          match rest1 with
          | [] => [REPLACEMENT_CHAR]
          | c2 :: rest2 =>
            if 0x80 ≤ c2 ∧ c2 ≤ 0xBF then
              ((b - 0xE0) * 0x1000 + (c1 - 0x80) * 0x40 + (c2 - 0x80)) ::
                utf8Lossy rest2
            else
              REPLACEMENT_CHAR :: utf8Lossy (c2 :: rest2)
        else
          REPLACEMENT_CHAR :: utf8Lossy (c1 :: rest1)
    else if b ≤ 0xF4 then
      match rest with
      | [] => [REPLACEMENT_CHAR]
      | c1 :: rest1 =>
        if (if b = 0xF0 then 0x90 ≤ c1 ∧ c1 ≤ 0xBF
            else if b = 0xF4 then 0x80 ≤ c1 ∧ c1 ≤ 0x8F
            else 0x80 ≤ c1 ∧ c1 ≤ 0xBF) then
          match rest1 with
          | [] => [REPLACEMENT_CHAR]
          | c2 :: rest2 =>
            if 0x80 ≤ c2 ∧ c2 ≤ 0xBF then
              match rest2 with
              | [] => [REPLACEMENT_CHAR]
              | c3 :: rest3 =>
                if 0x80 ≤ c3 ∧ c3 ≤ 0xBF then
                  ((b - 0xF0) * 0x40000 + (c1 - 0x80) * 0x1000 +
                    (c2 - 0x80) * 0x40 + (c3 - 0x80)) :: utf8Lossy rest3
                else
                  REPLACEMENT_CHAR :: utf8Lossy (c3 :: rest3)
            else
              REPLACEMENT_CHAR :: utf8Lossy (c2 :: rest2)
        else
          REPLACEMENT_CHAR :: utf8Lossy (c1 :: rest1)
    else
      -- invalid lead byte 0xF5..0xFF
      REPLACEMENT_CHAR :: utf8Lossy rest

/-- `trim_after_null`: returns a new string where all characters after the
first NUL have been removed (the character-by-character loop of
`src/bios.rs`). -/
def trim_after_null : List Nat → List Nat
  | [] => []
  | c :: rest => if c = 0 then [] else c :: trim_after_null rest

/-- `bytes_to_string`: slice `bytes[read_pos .. read_pos + read_len]`,
lossily decode it as UTF-8 and trim after the first NUL.  Rust slice
indexing panics when the range end exceeds the slice length; the panic is
modelled as `none`. -/
def bytes_to_string (bytes : List Nat) (read_pos read_len : Nat) :
    Option (List Nat) :=
  if read_pos + read_len ≤ bytes.length then
    some (trim_after_null (utf8Lossy ((bytes.drop read_pos).take read_len)))
  else
    none

/-- One pass of `BiosInfo::seek_to_bootefi_block` starting at stream
position `i`, with explicit fuel (the Rust loop advances the position by
at least one byte per iteration, so `bs.length + 1 - i` fuel is always
enough; see `seekFromF_fuel_irrelevant`).  Per iteration: read one byte
(EOF ⇒ `none`); if it is not `'$'` advance by one; otherwise step back
and read the whole 9-byte candidate window (EOF ⇒ `none`); on a full
marker match return the position just past the window, otherwise continue
scanning from just past the window. -/
def seekFromF : Nat → List Nat → Nat → Option Nat
  | 0, _, _ => none
  | fuel + 1, bs, i =>
    match bs[i]? with
    | none => none
    | some b =>
      if b ≠ 0x24 then
        seekFromF fuel bs (i + 1)
      else if i + INFO_HEADER_LEN ≤ bs.length then
        if (bs.drop i).take INFO_HEADER_LEN = BIOS_INFO_HEADER then
          some (i + INFO_HEADER_LEN)
        else
          seekFromF fuel bs (i + INFO_HEADER_LEN)
      else
        none

/-- The marker scan of `seek_to_bootefi_block` started at position `i`. -/
def seekFrom (bs : List Nat) (i : Nat) : Option Nat :=
  seekFromF (bs.length + 1 - i) bs i

/-- `BiosInfo::seek_to_bootefi_block`: seek through the input until the
`$BOOTEFI$` header is found, returning the stream position just past the
header. -/
def seek_to_bootefi_block (bs : List Nat) : Option Nat :=
  seekFrom bs 0

/-- Model of `chrono::NaiveDate`: a calendar date. -/
structure NaiveDate where
  year : Nat
  month : Nat
  day : Nat
deriving DecidableEq, Repr

/-- `chrono::NaiveDate::default()`: the Unix epoch, 1970-01-01. -/
def NaiveDate.unixEpoch : NaiveDate := ⟨1970, 1, 1⟩

def isLeapYear (y : Nat) : Bool :=
  (y % 4 == 0 && y % 100 != 0) || (y % 400 == 0)

def daysInMonth (y m : Nat) : Nat :=
  if m = 2 then (if isLeapYear y then 29 else 28)
  else if m = 4 ∨ m = 6 ∨ m = 9 ∨ m = 11 then 30
  else 31

def isAsciiDigit (c : Nat) : Bool :=
  0x30 ≤ c && c ≤ 0x39

/-- Numeric value of a list of ASCII digit code points. -/
def digitsToNat (cs : List Nat) : Nat :=
  cs.foldl (fun acc c => acc * 10 + (c - 0x30)) 0

/-- Model of `chrono::NaiveDate::parse_from_str(s, "%m/%d/%Y")` (external
library): month, a `/`, day, a `/`, year, all numeric, consuming the whole
string, and the triple must form a valid proleptic Gregorian calendar
date; any failure yields `none`. -/
def parse_mmddyyyy (s : List Nat) : Option NaiveDate :=
  match s.splitOn 0x2F with
  | [mm, dd, yyyy] =>
    if mm ≠ [] ∧ mm.length ≤ 2 ∧ mm.all isAsciiDigit ∧
       dd ≠ [] ∧ dd.length ≤ 2 ∧ dd.all isAsciiDigit ∧
       yyyy ≠ [] ∧ yyyy.length ≤ 4 ∧ yyyy.all isAsciiDigit then
      let m := digitsToNat mm
      let d := digitsToNat dd
      let y := digitsToNat yyyy
      if 1 ≤ m ∧ m ≤ 12 ∧ 1 ≤ d ∧ d ≤ daysInMonth y m then
        some ⟨y, m, d⟩
      else
        none
    else
      none
  | _ => none

/-- `BiosInfo`: information describing the BIOS/EFI file as read from its
info block. -/
structure BiosInfo where
  /-- Name of target motherboard. -/
  board_name : List Nat
  /-- Brand of motherboard. -/
  brand : List Nat
  /-- Reported BIOS build date. -/
  build_date : NaiveDate
  /-- Reported build number. -/
  build_number : List Nat
  /-- Filename the target motherboard expects this file to be named. -/
  expected_name : List Nat
deriving DecidableEq, Repr

def BiosInfo.get_board_name (self : BiosInfo) : List Nat := self.board_name

def BiosInfo.get_brand (self : BiosInfo) : List Nat := self.brand

def BiosInfo.get_build_date (self : BiosInfo) : NaiveDate := self.build_date

def BiosInfo.get_build_number (self : BiosInfo) : List Nat :=
  self.build_number

def BiosInfo.get_expected_name (self : BiosInfo) : List Nat :=
  self.expected_name

/-- Outcome of `BiosInfo::from_file` on a pure byte stream: a record, the
`InvalidData` error "Missing $BOOTEFI$ header in file", or a Rust panic
(out-of-range slice index inside `bytes_to_string`). -/
inductive FromFileResult where
  | ok (info : BiosInfo)
  | errMissingHeader
  | panicked
deriving DecidableEq, Repr

/-- `BiosInfo::from_file`: search for the marker (failure ⇒ the
`InvalidData` error), read up to `BIOS_INFO_SIZE` bytes following it
(`Read::take` + `read_to_end` returns fewer bytes without error at EOF),
then decode each field out of the info chunk in source order.  A slicing
panic in any `bytes_to_string` call aborts with `panicked`. -/
def from_file (bs : List Nat) : FromFileResult :=
  match seek_to_bootefi_block bs with
  | none => .errMissingHeader
  | some pos =>
    let info_chunk := (bs.drop pos).take BIOS_INFO_SIZE
    match bytes_to_string info_chunk BOARD_NAME_OFFSET BOARD_NAME_LEN with
    | none => .panicked
    | some board_name =>
      match bytes_to_string info_chunk BRAND_NAME_OFFSET BRAND_NAME_LEN with
      | none => .panicked
      | some brand =>
        match bytes_to_string info_chunk DATE_OFFSET DATE_LEN with
        | none => .panicked
        | some date_str =>
          match bytes_to_string info_chunk BUILD_NUMBER_OFFSET
              BUILD_NUMBER_LEN with
          | none => .panicked
          | some build_number =>
            match bytes_to_string info_chunk CAP_NAME_OFFSET CAP_NAME_LEN with
            | none => .panicked
            | some cap_name =>
              .ok { board_name := board_name
                    brand := brand
                    build_date :=
                      (parse_mmddyyyy date_str).getD NaiveDate.unixEpoch
                    build_number := build_number
                    expected_name := cap_name }

/-- `ValidationError`: various errors which can cause a file to fail
validation. -/
inductive ValidationError where
  | Metadata
  | FileTooLarge
  | NotRegularFile
deriving DecidableEq, Repr

/-- Filesystem metadata of an open file, as `File::metadata` reports it:
whether the entry is a regular file, and its length in bytes. -/
structure FileMetadata where
  is_file : Bool
  len : Nat
deriving DecidableEq, Repr

/-- `validate_file`: `metadata()` failure ⇒ `Metadata` (modelled by the
`none` input); then the regular-file check, then the size ceiling. -/
def validate_file (meta : Option FileMetadata) :
    Except ValidationError Unit :=
  match meta with
  | none => .error .Metadata
  | some file_info =>
    if ¬ file_info.is_file then .error .NotRegularFile
    else if file_info.len > MAX_FILE_SIZE then .error .FileTooLarge
    else .ok ()

/-- The 9-byte `$BOOTEFI$` marker occurs in `bs` starting at position `p`. -/
def markerAt (bs : List Nat) (p : Nat) : Prop :=
  (bs.drop p).take INFO_HEADER_LEN = BIOS_INFO_HEADER

instance (bs : List Nat) (p : Nat) : Decidable (markerAt bs p) := by
  unfold markerAt
  exact inferInstance

/-- The decoded content of the byte window `[off, off + len)` of an info
block: lossy UTF-8 decoding trimmed after the first NUL, exactly the
composition `bytes_to_string` applies to an in-bounds window. -/
def decodeWindow (block : List Nat) (off len : Nat) : List Nat :=
  trim_after_null (utf8Lossy ((block.drop off).take len))

end BiosRenamer

namespace BiosRenamer

theorem markerAt_le_length {bs : List Nat} {p : Nat} (h : markerAt bs p) :
    p + INFO_HEADER_LEN ≤ bs.length := by
  have hlen := congrArg List.length h
  simp only [List.length_take, List.length_drop] at hlen
  have : BIOS_INFO_HEADER.length = 9 := rfl
  rw [this] at hlen
  have : INFO_HEADER_LEN = 9 := rfl
  omega

theorem markerAt_head {bs : List Nat} {p : Nat} (h : markerAt bs p) :
    bs[p]? = some 0x24 := by
  have h0 : ((bs.drop p).take INFO_HEADER_LEN)[0]? = some 0x24 := by
    rw [h]; rfl
  rw [List.getElem?_take_of_lt (show 0 < INFO_HEADER_LEN by decide),
    List.getElem?_drop] at h0
  simpa using h0

theorem bs_getElem?_some_lt {bs : List Nat} {i b : Nat}
    (h : bs[i]? = some b) : i < bs.length := by
  rcases List.getElem?_eq_some_iff.mp h with ⟨hlt, _⟩
  exact hlt

/-- The fuel threaded through `seekFromF` is an artifact of the embedding:
any fuel exceeding the number of bytes left to scan yields the same
answer, so `seekFrom` captures the (always-terminating) Rust loop. -/
theorem seekFromF_fuel_irrelevant :
    ∀ (fuel₁ : Nat) (fuel₂ : Nat) (bs : List Nat) (i : Nat),
      bs.length - i < fuel₁ → bs.length - i < fuel₂ →
      seekFromF fuel₁ bs i = seekFromF fuel₂ bs i := by
  intro fuel₁
  induction fuel₁ with
  | zero => intro fuel₂ bs i h₁ _; omega
  | succ f ih =>
    intro fuel₂ bs i h₁ h₂
    match fuel₂ with
    | 0 => omega
    | f₂ + 1 =>
      simp only [seekFromF]
      cases hbi : bs[i]? with
      | none => rfl
      | some b =>
        have hi : i < bs.length := bs_getElem?_some_lt hbi
        by_cases hb : b = 0x24
        · simp only [hb, ne_eq, not_true_eq_false, if_false, ite_not]
          by_cases h9 : i + INFO_HEADER_LEN ≤ bs.length
          · simp only [h9, if_true]
            by_cases hm : (bs.drop i).take INFO_HEADER_LEN = BIOS_INFO_HEADER
            · simp [hm]
            · simp only [hm, if_false]
              exact ih f₂ bs (i + INFO_HEADER_LEN)
                (by simp [INFO_HEADER_LEN] at h9 ⊢; omega)
                (by simp [INFO_HEADER_LEN] at h9 ⊢; omega)
          · simp [h9]
        · simp only [ne_eq, hb, not_false_eq_true, if_true]
          exact ih f₂ bs (i + 1) (by omega) (by omega)

theorem seekFrom_eof {bs : List Nat} {i : Nat} (h : bs.length ≤ i) :
    seekFrom bs i = none := by
  rw [seekFrom]
  rcases Nat.lt_or_ge i (bs.length + 1) with hi | hi
  · have hfuel : bs.length + 1 - i = (bs.length - i) + 1 := by omega
    rw [hfuel]
    simp [seekFromF, List.getElem?_eq_none h]
  · have hfuel : bs.length + 1 - i = 0 := by omega
    rw [hfuel]
    rfl

theorem seekFrom_step_skip {bs : List Nat} {i b : Nat}
    (hb : bs[i]? = some b) (hne : b ≠ 0x24) :
    seekFrom bs i = seekFrom bs (i + 1) := by
  have hi : i < bs.length := bs_getElem?_some_lt hb
  rw [seekFrom, seekFrom]
  have hfuel : bs.length + 1 - i = (bs.length - i) + 1 := by omega
  rw [hfuel]
  simp only [seekFromF, hb, ne_eq, hne, not_false_eq_true, if_true]
  have hfuel' : bs.length + 1 - (i + 1) = bs.length - i := by omega
  rw [hfuel']

theorem seekFrom_step_match {bs : List Nat} {i : Nat}
    (hm : markerAt bs i) :
    seekFrom bs i = some (i + INFO_HEADER_LEN) := by
  have h9 : i + INFO_HEADER_LEN ≤ bs.length := markerAt_le_length hm
  have hi : i < bs.length := by
    have : INFO_HEADER_LEN = 9 := rfl
    omega
  rw [seekFrom]
  have hfuel : bs.length + 1 - i = (bs.length - i) + 1 := by omega
  rw [hfuel]
  have hm' : (bs.drop i).take INFO_HEADER_LEN = BIOS_INFO_HEADER := hm
  simp [seekFromF, markerAt_head hm, h9, hm']

theorem seekFrom_step_failed_candidate {bs : List Nat} {i : Nat}
    (hb : bs[i]? = some 0x24) (h9 : i + INFO_HEADER_LEN ≤ bs.length)
    (hm : ¬ markerAt bs i) :
    seekFrom bs i = seekFrom bs (i + INFO_HEADER_LEN) := by
  have hi : i < bs.length := bs_getElem?_some_lt hb
  have hm' : ¬ (bs.drop i).take INFO_HEADER_LEN = BIOS_INFO_HEADER := hm
  rw [seekFrom, seekFrom]
  have hfuel : bs.length + 1 - i = (bs.length - i) + 1 := by omega
  rw [hfuel]
  simp only [seekFromF, hb, ne_eq, not_true_eq_false, if_false, ite_not,
    h9, if_true, hm']
  have h9' : INFO_HEADER_LEN = 9 := rfl
  exact seekFromF_fuel_irrelevant _ _ bs (i + INFO_HEADER_LEN)
    (by omega) (by omega)

theorem seekFrom_eof_candidate {bs : List Nat} {i : Nat}
    (hb : bs[i]? = some 0x24) (h9 : bs.length < i + INFO_HEADER_LEN) :
    seekFrom bs i = none := by
  have hi : i < bs.length := bs_getElem?_some_lt hb
  rw [seekFrom]
  have hfuel : bs.length + 1 - i = (bs.length - i) + 1 := by omega
  rw [hfuel]
  simp [seekFromF, hb, Nat.not_le.mpr h9]

/-- Soundness of the marker scan: a successful return position lies just
past a genuine occurrence of the full 9-byte marker — the scan never
accepts a window that starts with `'$'` but diverges later. -/
theorem seekFromF_sound :
    ∀ (fuel : Nat) (bs : List Nat) (i p : Nat),
      seekFromF fuel bs i = some p →
      INFO_HEADER_LEN ≤ p ∧ markerAt bs (p - INFO_HEADER_LEN) := by
  intro fuel
  induction fuel with
  | zero => intro bs i p h; exact absurd h (by simp [seekFromF])
  | succ f ih =>
    intro bs i p h
    simp only [seekFromF] at h
    split at h
    · exact absurd h (by simp)
    · split at h
      · exact ih bs (i + 1) p h
      · split at h
        · split at h
          · rename_i hwin
            have hp : p = i + INFO_HEADER_LEN := by
              simpa using h.symm
            subst hp
            refine ⟨by omega, ?_⟩
            have : i + INFO_HEADER_LEN - INFO_HEADER_LEN = i := by omega
            rw [this]
            exact hwin
          · exact ih bs (i + INFO_HEADER_LEN) p h
        · exact absurd h (by simp)

/-- Completeness on non-derailing inputs: if the marker occurs at `p`
with no occurrence before it, and no candidate `'$'` byte sits in the 8
positions just before `p` (a failed candidate window there would make the
scan jump past `p`), then the scan started anywhere at or before `p`
returns the position just past the occurrence at `p`. -/
theorem seekFromF_finds_first :
    ∀ (fuel : Nat) (bs : List Nat) (i p : Nat),
      bs.length - i < fuel → i ≤ p → markerAt bs p →
      (∀ q, i ≤ q → q < p → ¬ markerAt bs q) →
      (∀ q, i ≤ q → q < p → p ≤ q + 8 → bs[q]? ≠ some 0x24) →
      seekFromF fuel bs i = some (p + INFO_HEADER_LEN) := by
  intro fuel
  induction fuel with
  | zero => intro bs i p hfuel _ _ _ _; omega
  | succ f ih =>
    intro bs i p hfuel hip hp hfirst hdollar
    have hp9 : p + INFO_HEADER_LEN ≤ bs.length := markerAt_le_length hp
    have h9eq : INFO_HEADER_LEN = 9 := rfl
    simp only [seekFromF]
    rcases Nat.eq_or_lt_of_le hip with heq | hlt
    · subst heq
      have hm' : (bs.drop i).take INFO_HEADER_LEN = BIOS_INFO_HEADER := hp
      simp [markerAt_head hp, show i + INFO_HEADER_LEN ≤ bs.length from hp9,
        hm']
    · have hi : i < bs.length := by omega
      cases hbi : bs[i]? with
      | none =>
        exact absurd hbi (by simp [hi, Nat.not_le.mpr hi])
      | some b =>
        by_cases hb : b = 0x24
        · subst hb
          have hfar : i + 8 < p := by
            by_contra hnear
            exact hdollar i (Nat.le_refl i) hlt (by omega) hbi
          have h9 : i + INFO_HEADER_LEN ≤ bs.length := by omega
          have hwin : ¬ (bs.drop i).take INFO_HEADER_LEN = BIOS_INFO_HEADER :=
            hfirst i (Nat.le_refl i) hlt
          simp only [hbi, ne_eq, not_true_eq_false, if_false, ite_not, h9,
            if_true, hwin]
          exact ih bs (i + INFO_HEADER_LEN) p (by omega) (by omega) hp
            (fun q hq hq' => hfirst q (by omega) hq')
            (fun q hq hq' hq'' => hdollar q (by omega) hq' hq'')
        · simp only [hbi, ne_eq, hb, not_false_eq_true, if_true]
          exact ih bs (i + 1) p (by omega) (by omega) hp
            (fun q hq hq' => hfirst q (by omega) hq')
            (fun q hq hq' hq'' => hdollar q (by omega) hq' hq'')

set_option maxHeartbeats 1000000 in
/-- One decoding step: on a non-empty input the lossy decoder always emits
exactly one code point and recurses on a suffix no longer than the tail,
i.e. each emitted code point consumes at least one input byte. -/
theorem utf8Lossy_cons (b : Nat) (rest : List Nat) :
    ∃ c t, utf8Lossy (b :: rest) = c :: utf8Lossy t ∧
      t.length ≤ rest.length := by
  rw [utf8Lossy.eq_def]
  repeat' split
  all_goals injections
  all_goals subst_vars
  all_goals
    first
      | (refine ⟨_, _, rfl, ?_⟩
         first
           | omega
           | (simp only [List.length_cons, List.length_nil]; omega))
      | (refine ⟨REPLACEMENT_CHAR, [], ?_, ?_⟩ <;> simp [utf8Lossy])

/-- The lossy decoding of a byte list never has more code points than the
list has bytes. -/
theorem utf8Lossy_length_le (l : List Nat) :
    (utf8Lossy l).length ≤ l.length := by
  suffices h : ∀ (n : Nat) (l : List Nat), l.length = n →
      (utf8Lossy l).length ≤ l.length from h l.length l rfl
  intro n
  induction n using Nat.strong_induction_on with
  | _ n ih =>
    intro l hn
    match l, hn with
    | [], _ => simp [utf8Lossy]
    | b :: rest, hn =>
      obtain ⟨c, t, heq, hlen⟩ := utf8Lossy_cons b rest
      rw [heq]
      have ht : (utf8Lossy t).length ≤ t.length :=
        ih t.length (by subst hn; simp only [List.length_cons]; omega) t rfl
      simp only [List.length_cons]
      omega

/-- Lossy decoding is the identity on ASCII byte lists. -/
theorem utf8Lossy_ascii :
    ∀ (l : List Nat), (∀ b ∈ l, b < 0x80) → utf8Lossy l = l
  | [], _ => rfl
  | b :: rest, h => by
    have hb : b < 0x80 := h b (List.mem_cons_self b rest)
    have hstep : utf8Lossy (b :: rest) = b :: utf8Lossy rest := by
      rw [utf8Lossy.eq_def]
      simp [hb]
    rw [hstep,
      utf8Lossy_ascii rest (fun x hx => h x (List.mem_cons_of_mem b hx))]

/-- The trimming loop computes exactly the longest NUL-free initial
segment: everything from the first NUL onward is discarded. -/
theorem trim_after_null_eq_takeWhile :
    ∀ (s : List Nat), trim_after_null s = s.takeWhile (fun c => c != 0)
  | [] => rfl
  | c :: rest => by
    by_cases hc : c = 0
    · subst hc; rfl
    · simp [trim_after_null, List.takeWhile_cons, hc,
        trim_after_null_eq_takeWhile rest]

theorem trim_after_null_no_null (s : List Nat) :
    0 ∉ trim_after_null s := by
  rw [trim_after_null_eq_takeWhile]
  intro hmem
  have := List.mem_takeWhile_imp hmem
  simp at this

theorem trim_after_null_length_le (s : List Nat) :
    (trim_after_null s).length ≤ s.length := by
  rw [trim_after_null_eq_takeWhile]
  exact (List.takeWhile_sublist _).length_le

/-- A string with no NUL anywhere is left unchanged by the trimming loop. -/
theorem trim_after_null_of_no_null :
    ∀ {s : List Nat}, 0 ∉ s → trim_after_null s = s
  | [], _ => rfl
  | c :: rest, h => by
    have hc : c ≠ 0 := fun hc => h (hc ▸ List.mem_cons_self c rest)
    simp only [trim_after_null, hc, if_false, List.cons.injEq, true_and]
    exact trim_after_null_of_no_null (fun hm => h (List.mem_cons_of_mem c hm))

theorem decodeWindow_length_le (block : List Nat) (off len : Nat) :
    (decodeWindow block off len).length ≤ len := by
  unfold decodeWindow
  have h1 := trim_after_null_length_le (utf8Lossy ((block.drop off).take len))
  have h2 := utf8Lossy_length_le ((block.drop off).take len)
  have h3 : ((block.drop off).take len).length ≤ len := by
    simp [List.length_take]
  omega

theorem decodeWindow_no_null (block : List Nat) (off len : Nat) :
    0 ∉ decodeWindow block off len :=
  trim_after_null_no_null _

theorem bytes_to_string_in_bounds {bytes : List Nat} {pos len : Nat}
    (h : pos + len ≤ bytes.length) :
    bytes_to_string bytes pos len = some (decodeWindow bytes pos len) := by
  unfold bytes_to_string decodeWindow
  rw [if_pos h]

theorem bytes_to_string_some_inv {bytes : List Nat} {pos len : Nat}
    {s : List Nat} (h : bytes_to_string bytes pos len = some s) :
    s = decodeWindow bytes pos len := by
  unfold bytes_to_string at h
  split at h
  · unfold decodeWindow
    exact (Option.some_inj.mp h).symm
  · cases h

theorem bytes_to_string_out_of_bounds {bytes : List Nat} {pos len : Nat}
    (h : bytes.length < pos + len) :
    bytes_to_string bytes pos len = none := by
  unfold bytes_to_string
  rw [if_neg (by omega)]

theorem seek_header_block (B : List Nat) :
    seek_to_bootefi_block (BIOS_INFO_HEADER ++ B) = some INFO_HEADER_LEN := by
  have hm : markerAt (BIOS_INFO_HEADER ++ B) 0 := by
    unfold markerAt
    rw [List.drop_zero]
    exact List.take_left' rfl
  have := seekFrom_step_match hm
  simpa [seek_to_bootefi_block] using this

/-- On an input of exactly `marker ++ B` with a full 158-byte block `B`,
`from_file` succeeds and every field is decoded from its documented
window of `B`. -/
theorem from_file_header_block (B : List Nat)
    (hB : B.length = BIOS_INFO_SIZE) :
    from_file (BIOS_INFO_HEADER ++ B) = .ok
      { board_name := decodeWindow B BOARD_NAME_OFFSET BOARD_NAME_LEN
        brand := decodeWindow B BRAND_NAME_OFFSET BRAND_NAME_LEN
        build_date := (parse_mmddyyyy
          (decodeWindow B DATE_OFFSET DATE_LEN)).getD NaiveDate.unixEpoch
        build_number := decodeWindow B BUILD_NUMBER_OFFSET BUILD_NUMBER_LEN
        expected_name := decodeWindow B CAP_NAME_OFFSET CAP_NAME_LEN } := by
  have hchunk :
      ((BIOS_INFO_HEADER ++ B).drop INFO_HEADER_LEN).take BIOS_INFO_SIZE
        = B := by
    rw [List.drop_left' (show BIOS_INFO_HEADER.length = INFO_HEADER_LEN from rfl), ← hB, List.take_length]
  unfold from_file
  rw [seek_header_block]
  simp only [hchunk]
  rw [bytes_to_string_in_bounds (by rw [hB]; decide),
    bytes_to_string_in_bounds (by rw [hB]; decide),
    bytes_to_string_in_bounds (by rw [hB]; decide),
    bytes_to_string_in_bounds (by rw [hB]; decide),
    bytes_to_string_in_bounds (by rw [hB]; decide)]

/-- Inversion: every successfully constructed record has each of its four
string fields equal to the decoded content of that field's documented
window of some info chunk. -/
theorem from_file_ok_inv {bs : List Nat} {info : BiosInfo}
    (h : from_file bs = .ok info) :
    ∃ chunk : List Nat,
      info.board_name = decodeWindow chunk BOARD_NAME_OFFSET BOARD_NAME_LEN ∧
      info.brand = decodeWindow chunk BRAND_NAME_OFFSET BRAND_NAME_LEN ∧
      info.build_number =
        decodeWindow chunk BUILD_NUMBER_OFFSET BUILD_NUMBER_LEN ∧
      info.expected_name = decodeWindow chunk CAP_NAME_OFFSET CAP_NAME_LEN := by
  unfold from_file at h
  split at h
  · cases h
  · rename_i pos hpos
    refine ⟨(bs.drop pos).take BIOS_INFO_SIZE, ?_⟩
    simp only [] at h
    split at h
    · cases h
    · rename_i board hboard
      split at h
      · cases h
      · rename_i brand hbrand
        split at h
        · cases h
        · rename_i date hdate
          split at h
          · cases h
          · rename_i bn hbn
            split at h
            · cases h
            · rename_i cap hcap
              cases h
              exact ⟨bytes_to_string_some_inv hboard,
                bytes_to_string_some_inv hbrand,
                bytes_to_string_some_inv hbn,
                bytes_to_string_some_inv hcap⟩

/-- C1: the spec requires a truncated-data error whenever fewer than 158
bytes follow the marker, with no panic and no out-of-bounds slicing.  The
code instead reads the short chunk without error (`Take::read_to_end`
returns the available bytes), then panics on the out-of-range slice
`&info_chunk[5..65]` when fewer than 148 bytes followed the marker — and
silently returns a success built from a truncated block when 148–157
bytes followed.  Evidence at concrete failing inputs: 10 trailing bytes
panic, 148 and 157 trailing bytes succeed, and no truncated-data error
exists on any path. -/
theorem c1_truncation_code_bug :
    from_file (BIOS_INFO_HEADER ++ List.replicate 10 0) = .panicked ∧
    from_file (BIOS_INFO_HEADER ++ []) = .panicked ∧
    from_file (BIOS_INFO_HEADER ++ List.replicate 148 0) =
      .ok ⟨[], [], NaiveDate.unixEpoch, [], []⟩ ∧
    from_file (BIOS_INFO_HEADER ++ List.replicate 157 0) =
      .ok ⟨[], [], NaiveDate.unixEpoch, [], []⟩ := by
  exact ⟨by decide, by decide, by decide, by decide⟩

/-- C2: for every input stream shorter than 9 bytes, or containing no
occurrence of the 9-byte marker, `from_file` returns the InvalidData
"Missing $BOOTEFI$ header in file" error — never a record or a panic. -/
theorem c2_no_marker_is_invalid_data (bs : List Nat)
    (h : bs.length < 9 ∨ ∀ i, ¬ markerAt bs i) :
    from_file bs = .errMissingHeader := by
  have hseek : seek_to_bootefi_block bs = none := by
    cases hs : seek_to_bootefi_block bs with
    | none => rfl
    | some p =>
      exfalso
      have hsound := seekFromF_sound (bs.length + 1 - 0) bs 0 p hs
      rcases h with hlen | hno
      · have := markerAt_le_length hsound.2
        have h9 : INFO_HEADER_LEN = 9 := rfl
        omega
      · exact hno (p - INFO_HEADER_LEN) hsound.2
  unfold from_file
  rw [hseek]

theorem c2_witness :
    ((List.replicate 3 0 : List Nat).length < 9 ∨
      ∀ i, ¬ markerAt (List.replicate 3 0) i) ∧
    from_file (List.replicate 3 0) = .errMissingHeader :=
  ⟨Or.inl (by decide),
    c2_no_marker_is_invalid_data _ (Or.inl (by decide))⟩

/-- C3 counterexample: the stream `0x24 :: marker` contains the marker
(at position 1, overlapping the failed candidate window at position 0),
yet the search fails — so the search does not always succeed at the first
occurrence. -/
theorem c3_counterexample :
    markerAt (0x24 :: BIOS_INFO_HEADER) 1 ∧
    seek_to_bootefi_block (0x24 :: BIOS_INFO_HEADER) = none := by
  exact ⟨by decide, by decide⟩

/-- C3 (amended): the search never matches a window that starts with
0x24 but is not the full marker — on success the 9 bytes ending at the
returned position are exactly the marker; and it succeeds immediately
after the first occurrence provided additionally that no candidate byte
0x24 occupies any of the 8 positions immediately preceding that
occurrence (a failed candidate window there makes the scan, which resumes
9 bytes past a failed candidate, jump over the occurrence — the
counterexample's behaviour). -/
theorem c3_amended_first_occurrence :
    (∀ (bs : List Nat) (p : Nat), seek_to_bootefi_block bs = some p →
      INFO_HEADER_LEN ≤ p ∧ markerAt bs (p - INFO_HEADER_LEN)) ∧
    (∀ (bs : List Nat) (p : Nat), markerAt bs p →
      (∀ q, q < p → ¬ markerAt bs q) →
      (∀ q, q < p → p ≤ q + 8 → bs[q]? ≠ some 0x24) →
      seek_to_bootefi_block bs = some (p + INFO_HEADER_LEN)) := by
  constructor
  · intro bs p h
    exact seekFromF_sound (bs.length + 1 - 0) bs 0 p h
  · intro bs p hp hfirst hdollar
    unfold seek_to_bootefi_block seekFrom
    exact seekFromF_finds_first (bs.length + 1 - 0) bs 0 p (by omega)
      (Nat.zero_le p) hp (fun q _ hq => hfirst q hq)
      (fun q _ hq hq' => hdollar q hq hq')

theorem c3_witness :
    seek_to_bootefi_block (BIOS_INFO_HEADER ++ List.replicate 158 0) =
      some (0 + INFO_HEADER_LEN) :=
  c3_amended_first_occurrence.2 _ 0 (by decide)
    (fun q hq => absurd hq (Nat.not_lt_zero q))
    (fun q hq => absurd hq (Nat.not_lt_zero q))

/-- C4 counterexample: on `0x24 :: marker` the 9-byte candidate at
position 0 starts with 0x24 and fails the full comparison; a scan resumed
from byte 2 of the failed candidate (index 1) succeeds there, yet the
search returns nothing — so the search does not resume from byte 2 of a
failed candidate. -/
theorem c4_counterexample :
    (0x24 :: BIOS_INFO_HEADER)[0]? = some 0x24 ∧
    ¬ markerAt (0x24 :: BIOS_INFO_HEADER) 0 ∧
    seekFrom (0x24 :: BIOS_INFO_HEADER) 1 = some 10 ∧
    seek_to_bootefi_block (0x24 :: BIOS_INFO_HEADER) = none := by
  exact ⟨by decide, by decide, by decide, by decide⟩

/-- C4 (amended): when a 9-byte candidate window beginning with 0x24
fails the full marker comparison, the search resumes scanning from the
byte immediately after the failed window (candidate start + 9), not from
byte 2 of the candidate. -/
theorem c4_amended_resume_past_window (bs : List Nat) (i : Nat)
    (hb : bs[i]? = some 0x24) (h9 : i + INFO_HEADER_LEN ≤ bs.length)
    (hm : ¬ markerAt bs i) :
    seekFrom bs i = seekFrom bs (i + INFO_HEADER_LEN) :=
  seekFrom_step_failed_candidate hb h9 hm

theorem c4_witness :
    seekFrom (0x24 :: BIOS_INFO_HEADER) 0 =
      seekFrom (0x24 :: BIOS_INFO_HEADER) (0 + INFO_HEADER_LEN) :=
  c4_amended_resume_past_window _ 0 (by decide) (by decide) (by decide)

/-- C5: for every input `marker ++ B` with `B` a 158-byte block,
`from_file` succeeds and each text field equals the bytes of `B` at its
documented window — board name at 0x05 length 60, brand at 0x41 length
20, build number at 0x61 length 14, expected name at 0x88 length 12 —
lossily decoded as text and trimmed at the first NUL; each field is a
function only of its window of `B`. -/
theorem c5_field_windows (B : List Nat) (hB : B.length = 158) :
    from_file (BIOS_INFO_HEADER ++ B) = .ok
      { board_name := decodeWindow B 0x05 60
        brand := decodeWindow B 0x41 20
        build_date := (parse_mmddyyyy (decodeWindow B 0x56 10)).getD
          NaiveDate.unixEpoch
        build_number := decodeWindow B 0x61 14
        expected_name := decodeWindow B 0x88 12 } :=
  from_file_header_block B hB

theorem c5_witness :
    from_file (BIOS_INFO_HEADER ++ List.replicate 158 0) = .ok
      { board_name := decodeWindow (List.replicate 158 0) 0x05 60
        brand := decodeWindow (List.replicate 158 0) 0x41 20
        build_date :=
          (parse_mmddyyyy (decodeWindow (List.replicate 158 0) 0x56 10)).getD
            NaiveDate.unixEpoch
        build_number := decodeWindow (List.replicate 158 0) 0x61 14
        expected_name := decodeWindow (List.replicate 158 0) 0x88 12 } :=
  c5_field_windows _ (by simp)

/-- C6: string field decoding is total on every in-bounds window and
equals the lossy UTF-8 decoding of the window truncated at the first
NUL, everything from the first NUL onward discarded; a string with no
NUL is returned by the trimming loop unchanged. -/
theorem c6_decode_total_trim :
    (∀ (bytes : List Nat) (pos len : Nat), pos + len ≤ bytes.length →
      bytes_to_string bytes pos len =
        some ((utf8Lossy ((bytes.drop pos).take len)).takeWhile
          (fun c => c != 0))) ∧
    (∀ s : List Nat, 0 ∉ s → trim_after_null s = s) := by
  constructor
  · intro bytes pos len h
    rw [bytes_to_string_in_bounds h]
    unfold decodeWindow
    rw [trim_after_null_eq_takeWhile]
  · intro s h
    exact trim_after_null_of_no_null h

theorem c6_witness :
    bytes_to_string [0x41, 0, 0x42] 0 3 =
      some ((utf8Lossy (([0x41, 0, 0x42].drop 0).take 3)).takeWhile
        (fun c => c != 0)) :=
  c6_decode_total_trim.1 _ 0 3 (by decide)

/-- C7: the build date is parsed from the 10-byte window at 0x56 as
MM/DD/YYYY: a window holding the bytes of "01/02/2020" yields January 2,
2020; parsing failure substitutes the epoch default; and a date parse
failure never fails `from_file` — the record is still produced. -/
theorem c7_build_date_lenient :
    (∀ (B : List Nat), B.length = 158 →
      (B.drop DATE_OFFSET).take DATE_LEN =
        [0x30, 0x31, 0x2F, 0x30, 0x32, 0x2F, 0x32, 0x30, 0x32, 0x30] →
      ∃ info, from_file (BIOS_INFO_HEADER ++ B) = .ok info ∧
        info.build_date = ⟨2020, 1, 2⟩) ∧
    (∀ (B : List Nat), B.length = 158 →
      ∃ info, from_file (BIOS_INFO_HEADER ++ B) = .ok info ∧
        info.build_date =
          (parse_mmddyyyy (decodeWindow B DATE_OFFSET DATE_LEN)).getD
            NaiveDate.unixEpoch) ∧
    (∀ (B : List Nat), B.length = 158 →
      parse_mmddyyyy (decodeWindow B DATE_OFFSET DATE_LEN) = none →
      ∃ info, from_file (BIOS_INFO_HEADER ++ B) = .ok info ∧
        info.build_date = NaiveDate.unixEpoch) := by
  refine ⟨?_, ?_, ?_⟩
  · intro B hB hwin
    refine ⟨_, from_file_header_block B hB, ?_⟩
    simp only [decodeWindow, hwin]
    decide
  · intro B hB
    exact ⟨_, from_file_header_block B hB, rfl⟩
  · intro B hB hfail
    refine ⟨_, from_file_header_block B hB, ?_⟩
    simp only [hfail, Option.getD_none]

theorem c7_witness :
    (∃ info,
      from_file (BIOS_INFO_HEADER ++
        (List.replicate 86 0x41 ++
          [0x30, 0x31, 0x2F, 0x30, 0x32, 0x2F, 0x32, 0x30, 0x32, 0x30] ++
          List.replicate 62 0x42)) = .ok info ∧
      info.build_date = ⟨2020, 1, 2⟩) ∧
    (∃ info, from_file (BIOS_INFO_HEADER ++ List.replicate 158 0) =
        .ok info ∧ info.build_date = NaiveDate.unixEpoch) :=
  ⟨c7_build_date_lenient.1 _ (by decide) (by decide),
    c7_build_date_lenient.2.2 _ (by decide) (by decide)⟩

/-- C8: `validate_file` returns Ok exactly when metadata is readable,
the entry is a regular file and the size is at most 150 × 1,048,576
bytes; failures are reported in the short-circuiting order
metadata-unreadable, NotRegularFile, FileTooLarge; a non-regular entry
(directory) yields NotRegularFile whatever its size; exactly 150 MiB
passes and 150 MiB + 1 fails. -/
theorem c8_validate_file_cases (meta : Option FileMetadata) :
    (validate_file meta = .ok () ↔
      ∃ md, meta = some md ∧ md.is_file = true ∧ md.len ≤ MAX_FILE_SIZE) ∧
    validate_file none = .error .Metadata ∧
    (∀ len, validate_file (some ⟨false, len⟩) = .error .NotRegularFile) ∧
    (∀ md : FileMetadata, md.is_file = true → MAX_FILE_SIZE < md.len →
      validate_file (some md) = .error .FileTooLarge) ∧
    validate_file (some ⟨true, 150 * 1048576⟩) = .ok () ∧
    validate_file (some ⟨true, 150 * 1048576 + 1⟩) = .error .FileTooLarge := by
  refine ⟨?_, rfl, fun len => rfl, ?_, rfl, rfl⟩
  · constructor
    · intro h
      match meta with
      | none => exact absurd h (by simp [validate_file])
      | some md =>
        simp only [validate_file] at h
        by_cases hf : md.is_file = true
        · rw [if_neg (by simp [hf])] at h
          by_cases hl : md.len > MAX_FILE_SIZE
          · rw [if_pos hl] at h
            cases h
          · exact ⟨md, rfl, hf, by omega⟩
        · rw [if_pos (by simp [hf])] at h
          cases h
    · rintro ⟨md, rfl, hf, hl⟩
      simp only [validate_file]
      rw [if_neg (by simp [hf]), if_neg (by omega)]
  · intro md hf hl
    simp only [validate_file]
    rw [if_neg (by simp [hf]), if_pos (by omega)]

theorem c8_witness :
    validate_file (some ⟨true, 150 * 1048576⟩) = .ok () :=
  (c8_validate_file_cases (some ⟨true, 150 * 1048576⟩)).2.2.2.2.1

/-- C9: parsing is deterministic — two successful parses of the same
byte content agree field-for-field on all five fields. -/
theorem c9_deterministic (bs : List Nat) (i1 i2 : BiosInfo)
    (h1 : from_file bs = .ok i1) (h2 : from_file bs = .ok i2) :
    i1.board_name = i2.board_name ∧ i1.brand = i2.brand ∧
    i1.build_date = i2.build_date ∧ i1.build_number = i2.build_number ∧
    i1.expected_name = i2.expected_name := by
  have heq : FromFileResult.ok i1 = FromFileResult.ok i2 := h1 ▸ h2
  injection heq with h
  subst h
  exact ⟨rfl, rfl, rfl, rfl, rfl⟩

theorem c9_witness :
    (BiosInfo.mk [] [] NaiveDate.unixEpoch [] []).board_name =
        (BiosInfo.mk [] [] NaiveDate.unixEpoch [] []).board_name ∧
      (BiosInfo.mk [] [] NaiveDate.unixEpoch [] []).brand =
        (BiosInfo.mk [] [] NaiveDate.unixEpoch [] []).brand ∧
      (BiosInfo.mk [] [] NaiveDate.unixEpoch [] []).build_date =
        (BiosInfo.mk [] [] NaiveDate.unixEpoch [] []).build_date ∧
      (BiosInfo.mk [] [] NaiveDate.unixEpoch [] []).build_number =
        (BiosInfo.mk [] [] NaiveDate.unixEpoch [] []).build_number ∧
      (BiosInfo.mk [] [] NaiveDate.unixEpoch [] []).expected_name =
        (BiosInfo.mk [] [] NaiveDate.unixEpoch [] []).expected_name :=
  c9_deterministic (BIOS_INFO_HEADER ++ List.replicate 158 0) _ _
    (by decide) (by decide)

/-- C10: every successfully constructed record satisfies the invariant
that each of the four string accessors returns a NUL-free string of
length bounded by its source window — board name ≤ 60, brand ≤ 20,
build number ≤ 14, expected name ≤ 12. -/
theorem c10_field_invariants (bs : List Nat) (info : BiosInfo)
    (h : from_file bs = .ok info) :
    (0 ∉ info.get_board_name ∧ info.get_board_name.length ≤ 60) ∧
    (0 ∉ info.get_brand ∧ info.get_brand.length ≤ 20) ∧
    (0 ∉ info.get_build_number ∧ info.get_build_number.length ≤ 14) ∧
    (0 ∉ info.get_expected_name ∧ info.get_expected_name.length ≤ 12) := by
  obtain ⟨chunk, hbn, hbr, hnum, hcap⟩ := from_file_ok_inv h
  simp only [BiosInfo.get_board_name, BiosInfo.get_brand,
    BiosInfo.get_build_number, BiosInfo.get_expected_name, hbn, hbr, hnum,
    hcap]
  exact ⟨⟨decodeWindow_no_null _ _ _, decodeWindow_length_le _ _ _⟩,
    ⟨decodeWindow_no_null _ _ _, decodeWindow_length_le _ _ _⟩,
    ⟨decodeWindow_no_null _ _ _, decodeWindow_length_le _ _ _⟩,
    ⟨decodeWindow_no_null _ _ _, decodeWindow_length_le _ _ _⟩⟩

theorem c10_witness :
    (0 ∉ (BiosInfo.mk [] [] NaiveDate.unixEpoch [] []).get_board_name ∧
      (BiosInfo.mk [] [] NaiveDate.unixEpoch [] []).get_board_name.length
        ≤ 60) ∧
    (0 ∉ (BiosInfo.mk [] [] NaiveDate.unixEpoch [] []).get_brand ∧
      (BiosInfo.mk [] [] NaiveDate.unixEpoch [] []).get_brand.length
        ≤ 20) ∧
    (0 ∉ (BiosInfo.mk [] [] NaiveDate.unixEpoch [] []).get_build_number ∧
      (BiosInfo.mk [] [] NaiveDate.unixEpoch [] []).get_build_number.length
        ≤ 14) ∧
    (0 ∉ (BiosInfo.mk [] [] NaiveDate.unixEpoch [] []).get_expected_name ∧
      (BiosInfo.mk [] [] NaiveDate.unixEpoch [] []).get_expected_name.length
        ≤ 12) :=
  c10_field_invariants (BIOS_INFO_HEADER ++ List.replicate 158 0) _
    (by decide)

end BiosRenamer
